import Mathlib

/-!
Verification of the Folkvang boss-tracker server (`src/main.py`).

The Python program keeps an in-memory `BossStorage` with
  * `bosses`   : a dict `floor1..floor4 -> (mage|healer|spearman|berserk -> Option KillRecord)`
  * `kill_history` : a list of history entries, capped at the last 100
and exposes the operations `init_bosses`, `kill_boss`, `get_boss_state`,
`get_recent_kills`, `reset_all`, plus HTTP routes (`/api/kill`, `/api/reset`)
and socket handlers (`boss_kill`) that drive them and emit events.

The embedding below is value-level and executable:
  * Python dicts become ordered association lists (`lookupA` / `updateA`
    mirror `d[k]` and `d[k] = v`, which appends when the key is absent).
  * Python values that can appear in a kill report (JSON scalars) become `Val`;
    `pyStr` is Python `str` as used by the f-string `floor{floor}` and
    `truthy` is Python truthiness (`not x`).
  * Timestamps are abstract integers (seconds); `isoformat`/`fromisoformat`
    round-trip exactly, so storing the time itself is faithful.
    `timedelta(hours=h)` is `h * 3600` seconds.
  * `datetime.now()` is passed in explicitly as the `now` argument.
-/

/-- A JSON-scalar Python value as it can arrive in a kill report. -/
inductive Val where
  | vInt (n : Int)
  | vStr (s : String)
  | vBool (b : Bool)
  | vNone
deriving DecidableEq, Repr

/-- Python `str(v)`, as used by the f-string `f'floor{floor}'` in `kill_boss`. -/
def pyStr : Val → String
  | .vInt n => toString n
  | .vStr s => s
  | .vBool true => "True"
  | .vBool false => "False"
  | .vNone => "None"

/-- Python truthiness: `not v` in `report_kill` is `truthy v = false`. -/
def truthy : Val → Bool
  | .vInt n => n != 0
  | .vStr s => s != ""
  | .vBool b => b
  | .vNone => false

/-- Ordered-association-list lookup: Python `d[k]` / `d.get(k)`. -/
def lookupA {α β : Type} [DecidableEq α] (k : α) : List (α × β) → Option β
  | [] => none
  | (k', v) :: rest => if k' = k then some v else lookupA k rest

/-- Ordered-association-list store: Python `d[k] = v` (updates in place,
appends when the key is absent — the source only ever assigns existing keys). -/
def updateA {α β : Type} [DecidableEq α] (k : α) (v : β) : List (α × β) → List (α × β)
  | [] => [(k, v)]
  | (k', v') :: rest => if k' = k then (k, v) :: rest else (k', v') :: updateA k v rest

/-- Python `data.get(k, dflt)` on a kill-report dict. -/
def dictGet (d : List (String × Val)) (k : String) (dflt : Val) : Val :=
  match lookupA k d with
  | some v => v
  | none => dflt

/-- The record written into a slot by `kill_boss`
(`kill_time` / `player` / `respawn_minutes`). -/
structure KillRecord where
  kill_time : Int
  player : Val
  respawn_minutes : Int
deriving DecidableEq, Repr

/-- One element of `kill_history`
(`floor` / `boss` / `player` / `kill_time` / `respawn`); `floor` and `boss`
are stored exactly as the caller supplied them. -/
structure HistoryEntry where
  floor : Val
  boss : Val
  player : Val
  kill_time : Int
  respawn : Int
deriving DecidableEq, Repr

/-- The slot map: `floor1..floor4`, each mapping the four boss-type keys to
an optional kill record (`None` = alive). -/
abbrev Bosses := List (String × List (String × Option KillRecord))

/-- The four per-floor keys created by `init_bosses`, in insertion order. -/
def bossTypes : List String := ["mage", "healer", "spearman", "berserk"]

/-- One freshly initialized floor: all four bosses alive. -/
def initFloor : List (String × Option KillRecord) :=
  bossTypes.map (fun b => (b, none))

/-- `BossStorage.init_bosses`: `floor1..floor4` (from `range(1, 5)`),
each with the four boss keys set to `None`. -/
def init_bosses : Bosses :=
  (List.range 4).map (fun i => ("floor" ++ toString (i + 1), initFloor))

/-- The whole mutable state of a `BossStorage` (the lock serializes the
methods, so each one is a pure state transformer here). -/
structure BossStorage where
  bosses : Bosses
  kill_history : List HistoryEntry
deriving DecidableEq, Repr

/-- `BossStorage.__init__`: fresh bosses, empty history. -/
def mkBossStorage : BossStorage :=
  { bosses := init_bosses, kill_history := [] }

/-- `self.kill_history = self.kill_history[-100:]` guarded by
`len(self.kill_history) > 100`. -/
def truncate100 (l : List HistoryEntry) : List HistoryEntry :=
  if l.length > 100 then l.drop (l.length - 100) else l

/-- `BossStorage.kill_boss(floor, boss_type, player)` at clock value `now`.
Checks `floor_key in self.bosses and boss_type in self.bosses[floor_key]`
(string-keyed dicts: a non-string `boss_type` is never a member), writes the
kill record, appends the raw-valued history entry, truncates the history,
and returns the success flag. -/
def kill_boss (st : BossStorage) (now : Int) (floor boss_type player : Val) :
    BossStorage × Bool :=
  let floor_key := "floor" ++ pyStr floor
  match lookupA floor_key st.bosses, boss_type with
  | some fm, .vStr bs =>
      if (lookupA bs fm).isSome then
        let r : KillRecord := { kill_time := now, player := player, respawn_minutes := 120 }
        let bosses' := updateA floor_key (updateA bs (some r) fm) st.bosses
        let hist := st.kill_history ++
          [{ floor := floor, boss := boss_type, player := player,
             kill_time := now, respawn := 120 }]
        ({ bosses := bosses', kill_history := truncate100 hist }, true)
      else (st, false)
  | _, _ => (st, false)

/-- `BossStorage.get_boss_state`: the value of `self.bosses.copy()`
(aliasing of the inner dicts is modelled separately below). -/
def get_boss_state (st : BossStorage) : Bosses :=
  st.bosses

/-- `BossStorage.get_recent_kills(hours)` at clock value `now`: walk the
history newest-first, keep entries with `kill_time > now - hours`, stop at
the first older one. -/
def get_recent_kills (st : BossStorage) (now : Int) (hours : Int) : List HistoryEntry :=
  let cutoff := now - hours * 3600
  st.kill_history.reverse.takeWhile (fun k => cutoff < k.kill_time)

/-- `BossStorage.reset_all`: re-runs `init_bosses` and returns `True`;
`kill_history` is not touched. -/
def reset_all (st : BossStorage) : BossStorage × Bool :=
  ({ st with bosses := init_bosses }, true)

/-- `storage.bosses[f'floor{floor}'][boss]` flattened: `some r` exactly when
the two keys exist and the slot holds a record. -/
def lookupSlot (st : BossStorage) (floor boss : Val) : Option KillRecord :=
  match lookupA ("floor" ++ pyStr floor) st.bosses, boss with
  | some fm, .vStr bs =>
      match lookupA bs fm with
      | some r => r
      | none => none
  | _, _ => none

/-- The payload of an emitted socket event. -/
inductive Payload where
  /-- The `kill_data` dict sent as `boss_update` (`action: boss_killed`). -/
  | update (floor boss player : Val) (kill_time : Int) (respawn_minutes : Int)
  /-- `kill_confirmed`: success flag, optional `kill_data`, optional error text. -/
  | confirmed (success : Bool) (floor boss player : Val) (kill_time : Int)
  /-- `kill_confirmed` with `success: False` and an error string. -/
  | confirmedFail (err : String)
  /-- The empty `reset_all` broadcast payload. -/
  | resetNote
deriving DecidableEq, Repr

/-- One `emit`/`socketio.emit` call: event name and the set of recipients
(`broadcast=True` = all connected clients; `include_self=False` drops the
sender; a bare `emit` goes to the sender only). -/
structure Emit where
  event : String
  recipients : List Nat
  payload : Payload
deriving DecidableEq, Repr

/-- The HTTP responses the handlers can produce. -/
inductive HttpResp where
  /-- `{'success': True, 'data': kill_data}` from `/api/kill`. -/
  | okKill (floor boss player : Val) (kill_time : Int)
  /-- `{'success': True}` from `/api/reset`. -/
  | okSuccess
  /-- `jsonify({'error': msg}), code`. -/
  | err (code : Nat) (msg : String)
deriving DecidableEq, Repr

/-- The `/api/kill` route `report_kill` at clock `now`, with `clients` the
currently connected sockets. Returns the new store, the emitted events and
the HTTP response. `request.json` being `None` and being `{}` both take the
`not data` branch. -/
def report_kill (st : BossStorage) (now : Int) (clients : List Nat)
    (data : List (String × Val)) : BossStorage × List Emit × HttpResp :=
  if data.isEmpty then (st, [], .err 400 "No JSON data")
  else
    let floor := dictGet data "floor" .vNone
    let boss := dictGet data "boss" .vNone
    let player := dictGet data "player" (.vStr "Игрок")
    if !truthy floor || !truthy boss then
      (st, [], .err 400 "Missing floor or boss")
    else
      let res := kill_boss st now floor boss player
      if res.2 then
        match lookupSlot res.1 floor boss with
        | some r =>
            (res.1,
             [{ event := "boss_update", recipients := clients,
                payload := .update floor boss player r.kill_time 120 }],
             .okKill floor boss player r.kill_time)
        | none =>
            -- `storage.bosses[f'floor{floor}'][boss]['kill_time']` raised;
            -- caught by the handler's `except` clause.
            (res.1, [], .err 500 "KeyError")
      else (st, [], .err 400 "Invalid floor or boss")

/-- The socket handler `handle_boss_kill` for a `boss_kill` message from
`sender`, at clock `now`. `data.get` supplies `None` for missing fields and
`'Unknown'` for a missing player; on success, `boss_update` goes to everyone
but the sender and `kill_confirmed` to the sender alone. -/
def handle_boss_kill (st : BossStorage) (now : Int) (clients : List Nat) (sender : Nat)
    (data : List (String × Val)) : BossStorage × List Emit :=
  let floor := dictGet data "floor" .vNone
  let boss := dictGet data "boss" .vNone
  let player := dictGet data "player" (.vStr "Unknown")
  let res := kill_boss st now floor boss player
  if res.2 then
    match lookupSlot res.1 floor boss with
    | some r =>
        (res.1,
         [{ event := "boss_update", recipients := clients.filter (fun c => c != sender),
            payload := .update floor boss player r.kill_time 120 },
          { event := "kill_confirmed", recipients := [sender],
            payload := .confirmed true floor boss player r.kill_time }])
    | none =>
        -- KeyError from building `kill_data`; the `except` clause answers.
        (res.1, [{ event := "kill_confirmed", recipients := [sender],
                   payload := .confirmedFail "KeyError" }])
  else
    (res.1, [{ event := "kill_confirmed", recipients := [sender],
               payload := .confirmedFail "Invalid data" }])

/-- The `/api/reset` route (named `reset_all` in the source): compares the
`X-Auth-Token` header (absent = `None`) with the configured admin token by
string equality, and on a match resets the store and broadcasts `reset_all`
to every connected client. -/
def reset_route (st : BossStorage) (clients : List Nat) (auth_token : Option String)
    (expected_token : String) : BossStorage × List Emit × HttpResp :=
  if auth_token = some expected_token then
    let res := reset_all st
    if res.2 then
      (res.1,
       [{ event := "reset_all", recipients := clients, payload := .resetNote }],
       .okSuccess)
    else (res.1, [], .err 500 "Reset failed")
  else (st, [], .err 401 "Unauthorized")

/-!
Reference model for `get_boss_state`: `self.bosses.copy()` is a *shallow*
dict copy, so the returned mapping and the store share the inner per-floor
dicts. To state what sharing means we embed Python object identity
explicitly: inner dicts live in a heap of numbered cells, the store's
`bosses` dict and any snapshot are association lists from floor keys to
cell ids, and mutation acts on the heap.
-/

/-- One inner per-floor dict, as stored in a heap cell. -/
abbrev FloorDict := List (String × Option KillRecord)

/-- The Python heap restricted to the per-floor dict objects. -/
structure HeapState where
  cells : List (Nat × FloorDict)
deriving DecidableEq, Repr

/-- Dereference one cell. -/
def lookupCell (h : HeapState) (i : Nat) : Option FloorDict :=
  lookupA i h.cells

/-- In-place mutation of the dict object in cell `i`
(e.g. `snap['floor1']['mage'] = rec` mutates the cell `snap['floor1']`
points to). -/
def setCell (h : HeapState) (i : Nat) (fd : FloorDict) : HeapState :=
  ⟨updateA i fd h.cells⟩

/-- `self.bosses.copy()`: a new top-level dict holding the same key/value
pairs — the values are the same references into the heap. -/
def dict_copy (top : List (String × Nat)) : List (String × Nat) :=
  top

/-- The slot state the store sees: every floor key resolved through the
heap. -/
def derefBosses (h : HeapState) (top : List (String × Nat)) :
    List (String × Option FloorDict) :=
  top.map (fun p => (p.1, lookupCell h p.2))

/-! ### Spec-side predicates and concrete states -/

/-- The four floor keys of the slot map, in creation order. -/
def floorKeys : List String := ["floor1", "floor2", "floor3", "floor4"]

/-- The data model's 16 valid slots, following the spec's words: an integer
floor in `{1,2,3,4}` paired with one of the four boss-type strings. -/
def specValidSlot (floor boss : Val) : Bool :=
  (match floor with
   | .vInt n => decide (1 ≤ n) && decide (n ≤ 4)
   | _ => false) &&
  (match boss with
   | .vStr s => decide (s ∈ bossTypes)
   | _ => false)

/-- The slot map has exactly the four floor keys, each inner dict exactly
the four boss-type keys (in creation order). -/
def wellKeyed (b : Bosses) : Bool :=
  decide (b.map Prod.fst = floorKeys) &&
  b.all (fun p => decide (p.2.map Prod.fst = bossTypes))

/-- A history entry addresses one of the 16 slots: its floor interpolates to
a valid floor key and its boss is one of the four type strings. -/
def entryOk (e : HistoryEntry) : Bool :=
  decide (("floor" ++ pyStr e.floor) ∈ floorKeys) &&
  (match e.boss with
   | .vStr s => decide (s ∈ bossTypes)
   | _ => false)

/-- The store invariant: well-keyed slot map, history capped at 100 entries,
every history entry addressing a valid slot. -/
def storeInv (st : BossStorage) : Prop :=
  wellKeyed st.bosses = true ∧ st.kill_history.length ≤ 100 ∧
    ∀ e ∈ st.kill_history, entryOk e = true

/-- A reachable state: the fresh store after one valid kill
(`floor=1`, `boss="mage"`, `player="Alice"`) at clock 0. -/
def killedOnce : BossStorage :=
  (kill_boss mkBossStorage 0 (.vInt 1) (.vStr "mage") (.vStr "Alice")).1

/-- A reachable heap for the fresh store: the four floor dicts in cells 0–3. -/
def storeHeap0 : HeapState :=
  ⟨[(0, initFloor), (1, initFloor), (2, initFloor), (3, initFloor)]⟩

/-- The fresh store's `bosses` dict as references into `storeHeap0`. -/
def storeTop0 : List (String × Nat) :=
  [("floor1", 0), ("floor2", 1), ("floor3", 2), ("floor4", 3)]

/-! ### Association-list lemmas -/

theorem lookupA_updateA_self {α β : Type} [DecidableEq α] (k : α) (v : β) :
    ∀ l : List (α × β), lookupA k (updateA k v l) = some v := by
  intro l
  induction l with
  | nil => simp [updateA, lookupA]
  | cons p rest ih =>
      obtain ⟨k', v'⟩ := p
      by_cases h : k' = k
      · simp [updateA, lookupA, h]
      · simp [updateA, lookupA, h, ih]

theorem lookupA_isSome_iff {α β : Type} [DecidableEq α] (k : α) :
    ∀ l : List (α × β), (lookupA k l).isSome = true ↔ k ∈ l.map Prod.fst := by
  intro l
  induction l with
  | nil => simp [lookupA]
  | cons p rest ih =>
      obtain ⟨k', v'⟩ := p
      by_cases h : k' = k
      · simp [lookupA, h]
      · simp [lookupA, h, ih, Ne.symm h]

theorem lookupA_mem_snd {α β : Type} [DecidableEq α] {k : α} {v : β} :
    ∀ {l : List (α × β)}, lookupA k l = some v → v ∈ l.map Prod.snd := by
  intro l
  induction l with
  | nil => intro h; simp [lookupA] at h
  | cons p rest ih =>
      obtain ⟨k', v'⟩ := p
      intro h
      simp only [lookupA] at h
      simp only [List.map_cons, List.mem_cons]
      by_cases hk : k' = k
      · rw [if_pos hk] at h
        exact Or.inl (Option.some.inj h).symm
      · rw [if_neg hk] at h
        exact Or.inr (ih h)

theorem updateA_map_fst {α β : Type} [DecidableEq α] (k : α) (v : β) :
    ∀ l : List (α × β), k ∈ l.map Prod.fst →
      (updateA k v l).map Prod.fst = l.map Prod.fst := by
  intro l
  induction l with
  | nil => intro h; simp at h
  | cons p rest ih =>
      obtain ⟨k', v'⟩ := p
      intro hmem
      simp only [List.map_cons, List.mem_cons] at hmem
      by_cases hk : k' = k
      · simp only [updateA, if_pos hk, List.map_cons]
        rw [hk]
      · simp only [updateA, if_neg hk, List.map_cons]
        rcases hmem with hk2 | hk2
        · exact absurd hk2.symm hk
        · rw [ih hk2]

theorem mem_updateA_snd {α β : Type} [DecidableEq α] {k : α} {v w : β} :
    ∀ {l : List (α × β)}, w ∈ (updateA k v l).map Prod.snd →
      w = v ∨ w ∈ l.map Prod.snd := by
  intro l
  induction l with
  | nil =>
      intro h
      simp [updateA] at h
      exact Or.inl h
  | cons p rest ih =>
      obtain ⟨k', v'⟩ := p
      intro h
      by_cases hk : k' = k
      · simp only [updateA, if_pos hk, List.map_cons, List.mem_cons] at h
        rcases h with h | h
        · exact Or.inl h
        · exact Or.inr (by simp only [List.map_cons, List.mem_cons]; exact Or.inr h)
      · simp only [updateA, if_neg hk, List.map_cons, List.mem_cons] at h
        rcases h with h | h
        · exact Or.inr (by simp only [List.map_cons, List.mem_cons]; exact Or.inl h)
        · rcases ih h with h2 | h2
          · exact Or.inl h2
          · exact Or.inr (by simp only [List.map_cons, List.mem_cons]; exact Or.inr h2)

theorem lookupA_map_value {α β γ : Type} [DecidableEq α] (k : α) (f : β → γ) :
    ∀ l : List (α × β),
      lookupA k (l.map (fun p => (p.1, f p.2))) = (lookupA k l).map f := by
  intro l
  induction l with
  | nil => simp [lookupA]
  | cons p rest ih =>
      obtain ⟨k', v'⟩ := p
      by_cases h : k' = k
      · simp [lookupA, h]
      · simp [lookupA, h, ih]

/-! ### History-truncation lemmas -/

theorem truncate100_length (l : List HistoryEntry) :
    (truncate100 l).length = min l.length 100 := by
  unfold truncate100
  by_cases h : l.length > 100
  · simp [h, List.length_drop]
    omega
  · simp [h]
    omega

theorem mem_of_mem_truncate100 {e : HistoryEntry} {l : List HistoryEntry}
    (h : e ∈ truncate100 l) : e ∈ l := by
  unfold truncate100 at h
  by_cases hl : l.length > 100
  · simp [hl] at h
    exact List.mem_of_mem_drop h
  · simpa [hl] using h

theorem getLast?_drop_of_lt {α : Type} :
    ∀ (l : List α) (k : Nat), k < l.length → (l.drop k).getLast? = l.getLast? := by
  intro l
  induction l with
  | nil => intro k h; simp at h
  | cons a t ih =>
      intro k h
      match k with
      | 0 => rfl
      | k + 1 =>
          have hk : k < t.length := by
            simpa using h
          cases t with
          | nil => simp at hk
          | cons b rest =>
              rw [List.drop_succ_cons, ih k hk, List.getLast?_cons_cons]

theorem truncate100_concat_getLast (l : List HistoryEntry) (e : HistoryEntry) :
    (truncate100 (l ++ [e])).getLast? = some e := by
  unfold truncate100
  by_cases h : (l ++ [e]).length > 100
  · rw [if_pos h,
      getLast?_drop_of_lt _ _ (by omega : (l ++ [e]).length - 100 < (l ++ [e]).length)]
    exact List.getLast?_concat l
  · rw [if_neg h]
    exact List.getLast?_concat l

/-! ### takeWhile on a sorted list -/

theorem takeWhile_eq_filter_of_desc (c : Int) :
    ∀ l : List HistoryEntry,
      l.Pairwise (fun a b => b.kill_time ≤ a.kill_time) →
      l.takeWhile (fun k => c < k.kill_time) = l.filter (fun k => c < k.kill_time) := by
  intro l
  induction l with
  | nil => simp
  | cons a t ih =>
      intro hp
      rw [List.pairwise_cons] at hp
      by_cases hc : c < a.kill_time
      · simp [List.takeWhile_cons, List.filter_cons, hc, ih hp.2]
      · simp [List.takeWhile_cons, List.filter_cons, hc]
        intro b hb
        have := hp.1 b hb
        omega

/-! ### kill_boss characterization -/

theorem kill_boss_cases (st : BossStorage) (now : Int) (floor boss_type player : Val) :
    kill_boss st now floor boss_type player = (st, false) ∨
    ∃ fm bs, boss_type = Val.vStr bs ∧
      lookupA ("floor" ++ pyStr floor) st.bosses = some fm ∧
      (lookupA bs fm).isSome = true ∧
      kill_boss st now floor boss_type player =
        ({ bosses := updateA ("floor" ++ pyStr floor)
             (updateA bs (some ⟨now, player, 120⟩) fm) st.bosses,
           kill_history := truncate100 (st.kill_history ++
             [⟨floor, boss_type, player, now, 120⟩]) }, true) := by
  cases hfk : lookupA ("floor" ++ pyStr floor) st.bosses with
  | none => left; cases boss_type <;> simp [kill_boss, hfk]
  | some fm =>
      cases boss_type with
      | vStr bs =>
          by_cases hbs : (lookupA bs fm).isSome = true
          · right
            exact ⟨fm, bs, rfl, rfl, hbs, by simp [kill_boss, hfk, hbs]⟩
          · left
            simp [kill_boss, hfk, hbs]
      | vInt n => left; simp [kill_boss, hfk]
      | vBool b => left; simp [kill_boss, hfk]
      | vNone => left; simp [kill_boss, hfk]

theorem kill_boss_eq_of_lookup {st : BossStorage} {now : Int} {floor player : Val}
    {fm : List (String × Option KillRecord)} {bs : String}
    (hfk : lookupA ("floor" ++ pyStr floor) st.bosses = some fm)
    (hbs : (lookupA bs fm).isSome = true) :
    kill_boss st now floor (.vStr bs) player =
      ({ bosses := updateA ("floor" ++ pyStr floor)
           (updateA bs (some ⟨now, player, 120⟩) fm) st.bosses,
         kill_history := truncate100 (st.kill_history ++
           [⟨floor, .vStr bs, player, now, 120⟩]) }, true) := by
  simp [kill_boss, hfk, hbs]

theorem kill_boss_success_lookup (st : BossStorage) (now : Int) (floor boss_type player : Val)
    (hs : (kill_boss st now floor boss_type player).2 = true) :
    lookupSlot (kill_boss st now floor boss_type player).1 floor boss_type =
      some { kill_time := now, player := player, respawn_minutes := 120 } := by
  rcases kill_boss_cases st now floor boss_type player with hc | ⟨fm, bs, hb, hfk, hbs, hc⟩
  · rw [hc] at hs
    simp at hs
  · subst hb
    rw [hc]
    simp [lookupSlot, lookupA_updateA_self]

/-! ### Well-keyedness lemmas -/

theorem wellKeyed_iff {b : Bosses} :
    wellKeyed b = true ↔
      b.map Prod.fst = floorKeys ∧ ∀ p ∈ b, p.2.map Prod.fst = bossTypes := by
  simp [wellKeyed, List.all_eq_true]

theorem floor_mem_of_lookup {b : Bosses} {fk : String}
    {fm : List (String × Option KillRecord)}
    (hw : wellKeyed b = true) (hfk : lookupA fk b = some fm) : fk ∈ floorKeys := by
  have hmem : fk ∈ b.map Prod.fst :=
    (lookupA_isSome_iff fk b).mp (by rw [hfk]; rfl)
  rwa [(wellKeyed_iff.mp hw).1] at hmem

theorem boss_keys_of_lookup {b : Bosses} {fk : String}
    {fm : List (String × Option KillRecord)}
    (hw : wellKeyed b = true) (hfk : lookupA fk b = some fm) :
    fm.map Prod.fst = bossTypes := by
  obtain ⟨p, hp, hpfm⟩ := List.mem_map.mp (lookupA_mem_snd hfk)
  rw [← hpfm]
  exact (wellKeyed_iff.mp hw).2 p hp

theorem boss_mem_of_lookup {b : Bosses} {fk bs : String}
    {fm : List (String × Option KillRecord)}
    (hw : wellKeyed b = true) (hfk : lookupA fk b = some fm)
    (hbs : (lookupA bs fm).isSome = true) : bs ∈ bossTypes := by
  have := (lookupA_isSome_iff bs fm).mp hbs
  rwa [boss_keys_of_lookup hw hfk] at this

theorem wellKeyed_update {b : Bosses} {fk bs : String}
    {fm : List (String × Option KillRecord)} {r : Option KillRecord}
    (h : wellKeyed b = true) (hfk : lookupA fk b = some fm)
    (hbs : (lookupA bs fm).isSome = true) :
    wellKeyed (updateA fk (updateA bs r fm) b) = true := by
  rw [wellKeyed_iff] at h ⊢
  obtain ⟨h1, h2⟩ := h
  have hfm_keys : fm.map Prod.fst = bossTypes :=
    boss_keys_of_lookup (wellKeyed_iff.mpr ⟨h1, h2⟩) hfk
  have hfk_mem : fk ∈ b.map Prod.fst :=
    (lookupA_isSome_iff fk b).mp (by rw [hfk]; rfl)
  have hbs_mem : bs ∈ fm.map Prod.fst := (lookupA_isSome_iff bs fm).mp hbs
  constructor
  · rw [updateA_map_fst fk _ b hfk_mem, h1]
  · intro q hq
    have hq_snd : q.2 ∈ (updateA fk (updateA bs r fm) b).map Prod.snd :=
      List.mem_map_of_mem Prod.snd hq
    rcases mem_updateA_snd hq_snd with hq2 | hq2
    · rw [hq2, updateA_map_fst bs _ fm hbs_mem, hfm_keys]
    · obtain ⟨p', hp', hp2⟩ := List.mem_map.mp hq2
      rw [← hp2]
      exact h2 p' hp'

theorem valid_slot_lookup {st : BossStorage} {n : Int} {bs : String}
    (hw : wellKeyed st.bosses = true) (h1 : 1 ≤ n) (h4 : n ≤ 4) (hb : bs ∈ bossTypes) :
    ∃ fm, lookupA ("floor" ++ toString n) st.bosses = some fm ∧
      (lookupA bs fm).isSome = true := by
  have hw' := wellKeyed_iff.mp hw
  have hfkmem : ("floor" ++ toString n) ∈ floorKeys := by
    interval_cases n <;> decide
  have hsome : (lookupA ("floor" ++ toString n) st.bosses).isSome = true :=
    (lookupA_isSome_iff _ st.bosses).mpr (by rw [hw'.1]; exact hfkmem)
  obtain ⟨fm, hfk⟩ := Option.isSome_iff_exists.mp hsome
  refine ⟨fm, hfk, ?_⟩
  exact (lookupA_isSome_iff bs fm).mpr (by rw [boss_keys_of_lookup hw hfk]; exact hb)

/-! ### report_kill characterization -/

theorem report_kill_success_emits (st : BossStorage) (now : Int) (clients : List Nat)
    (data : List (String × Val))
    (hne : data.isEmpty = false)
    (hf : truthy (dictGet data "floor" .vNone) = true)
    (hbt : truthy (dictGet data "boss" .vNone) = true)
    (hs : (kill_boss st now (dictGet data "floor" .vNone) (dictGet data "boss" .vNone)
      (dictGet data "player" (.vStr "Игрок"))).2 = true) :
    report_kill st now clients data =
      ((kill_boss st now (dictGet data "floor" .vNone) (dictGet data "boss" .vNone)
          (dictGet data "player" (.vStr "Игрок"))).1,
       [{ event := "boss_update", recipients := clients,
          payload := .update (dictGet data "floor" .vNone) (dictGet data "boss" .vNone)
            (dictGet data "player" (.vStr "Игрок")) now 120 }],
       .okKill (dictGet data "floor" .vNone) (dictGet data "boss" .vNone)
         (dictGet data "player" (.vStr "Игрок")) now) := by
  have hlook := kill_boss_success_lookup st now
    (dictGet data "floor" .vNone) (dictGet data "boss" .vNone)
    (dictGet data "player" (.vStr "Игрок")) hs
  simp [report_kill, hne, hf, hbt, hs, hlook]

/-! ### Claim C1 — reset -/

/-- C1 counterexample: after one kill at clock 0, `reset_all` succeeds and
the snapshot equals a fresh `init_bosses`, but `get_recent_kills` (window 2,
clock 0) still returns the pre-reset entry — the kill history is NOT
cleared, so the claim "recentKills(h) returns an empty sequence" is false at
this reachable state. -/
theorem C1_reset_counterexample :
    (reset_all killedOnce).2 = true ∧
    get_boss_state (reset_all killedOnce).1 = init_bosses ∧
    get_recent_kills (reset_all killedOnce).1 0 2 ≠ [] := by
  decide

/-- C1 (amended): for every state, `reset_all` succeeds and resets all 16
slots, so a subsequent snapshot equals the result of a fresh `init_bosses`;
the kill history, however, is left exactly as it was (it is not cleared, so
`get_recent_kills` can still report pre-reset kills). -/
theorem C1_reset_amended (st : BossStorage) :
    (reset_all st).2 = true ∧
    get_boss_state (reset_all st).1 = init_bosses ∧
    (reset_all st).1.kill_history = st.kill_history :=
  ⟨rfl, rfl, rfl⟩

/-! ### Claim C2 — recent kills window -/

/-- C2 counterexample: `killedOnce` has exactly one history entry, whose
`kill_time` is exactly `now - h` (kill at 0, `now = 3600`, `h = 1` hour);
`get_recent_kills` returns the empty list, so an entry at exactly the
window boundary is excluded, not included as the claim states. -/
theorem C2_recent_kills_counterexample :
    (∃ e ∈ killedOnce.kill_history, e.kill_time = 3600 - 1 * 3600) ∧
    get_recent_kills killedOnce 3600 1 = [] := by
  decide

/-- C2 (amended): when the history is chronologically ordered and has no
entry dated after `now`, `get_recent_kills` returns exactly the entries with
`kill_time` in the half-open window `(now - h, now]` — strictly newer than
the cutoff, so an entry at exactly `now - h` is excluded — ordered
most-recent-first (the reverse of the chronological order). -/
theorem C2_recent_kills_amended (st : BossStorage) (now h : Int)
    (hs : st.kill_history.Pairwise (fun a b => a.kill_time ≤ b.kill_time))
    (hn : ∀ e ∈ st.kill_history, e.kill_time ≤ now) :
    get_recent_kills st now h =
      (st.kill_history.filter
        (fun k => now - h * 3600 < k.kill_time && k.kill_time ≤ now)).reverse := by
  unfold get_recent_kills
  rw [takeWhile_eq_filter_of_desc (now - h * 3600) st.kill_history.reverse
      (List.pairwise_reverse.mpr hs),
    List.filter_reverse]
  congr 1
  apply List.filter_congr
  intro e he
  have hle : e.kill_time ≤ now := hn e he
  simp [hle]

/-- C2 witness: the amended window law evaluated at a concrete reachable
state (one kill at clock 0, queried at `now = 3600` with a 2-hour
window). -/
theorem C2_recent_kills_witness :
    get_recent_kills killedOnce 3600 2 =
      (killedOnce.kill_history.filter
        (fun k => 3600 - 2 * 3600 < k.kill_time && k.kill_time ≤ 3600)).reverse :=
  C2_recent_kills_amended killedOnce 3600 2 (by decide) (by decide)

/-! ### Claim C3 — snapshot is a shallow copy -/

/-- C3 counterexample: with the fresh store's four floor dicts in heap cells
0–3, the snapshot (`dict.copy()`) holds the same cell reference `0` for
`floor1` as the store itself; writing a kill record through that reference
changes the slot state the store dereferences — the snapshot is not an
independent deep copy. -/
theorem C3_snapshot_counterexample :
    lookupA "floor1" (dict_copy storeTop0) = some 0 ∧
    derefBosses
        (setCell storeHeap0 0 (updateA "mage" (some ⟨0, .vStr "Mallory", 120⟩) initFloor))
        storeTop0 ≠
      derefBosses storeHeap0 storeTop0 := by
  decide

/-- C3 (amended): `get_boss_state` returns a shallow copy: a fresh top-level
mapping whose values are the same inner floor dicts as the store's own.
Mutating the top-level copy does not affect the store, but writing through
an inner dict reached from the snapshot (cell `cid` below) is visible in the
store's dereferenced slot state. -/
theorem C3_snapshot_amended (h : HeapState) (top : List (String × Nat))
    (fk : String) (cid : Nat) (fd' : FloorDict)
    (hlk : lookupA fk (dict_copy top) = some cid) :
    lookupA fk top = some cid ∧
    lookupA fk (derefBosses (setCell h cid fd') top) = some (some fd') := by
  have hlk' : lookupA fk top = some cid := hlk
  refine ⟨hlk', ?_⟩
  unfold derefBosses
  rw [lookupA_map_value fk (fun c => lookupCell (setCell h cid fd') c) top, hlk']
  simp [lookupCell, setCell, lookupA_updateA_self]

/-- C3 witness: the amended sharing law at the fresh store's heap. -/
theorem C3_snapshot_witness :
    lookupA "floor1" storeTop0 = some 0 ∧
    lookupA "floor1"
        (derefBosses
          (setCell storeHeap0 0 (updateA "mage" (some ⟨5, .vStr "W", 120⟩) initFloor))
          storeTop0) =
      some (some (updateA "mage" (some ⟨5, .vStr "W", 120⟩) initFloor)) :=
  C3_snapshot_amended storeHeap0 storeTop0 "floor1" 0
    (updateA "mage" (some ⟨5, .vStr "W", 120⟩) initFloor) (by decide)

/-! ### Claim C4 — operation invariants -/

/-- C4 counterexample: from the freshly initialized store, `kill_boss` with
the string floor `"1"` succeeds (the f-string interpolation yields the valid
key `floor1`), and the appended history entry's `(floor, boss)` pair —
the string `"1"` with `"mage"` — is not one of the 16 valid slots of the
data model, refuting the entry-validity conjunct of the claimed invariant. -/
theorem C4_invariants_counterexample :
    (kill_boss mkBossStorage 0 (.vStr "1") (.vStr "mage") (.vStr "A")).2 = true ∧
    ∃ e ∈ (kill_boss mkBossStorage 0 (.vStr "1") (.vStr "mage") (.vStr "A")).1.kill_history,
      specValidSlot e.floor e.boss = false := by
  decide

/-- C4 (amended): initialization establishes, and `kill_boss` and
`reset_all` preserve (the read-only operations do not change state in this
embedding), the invariant that the slot map has exactly the 16 fixed keys,
the history has at most 100 entries, and every history entry *addresses* one
of the 16 slots — its floor interpolates to a valid floor key and its boss
is one of the four type strings — though the stored floor value itself may
be a non-integer spelling such as the string `"1"`. -/
theorem C4_invariants_amended :
    storeInv mkBossStorage ∧
    (∀ st now floor boss_type player, storeInv st →
      storeInv (kill_boss st now floor boss_type player).1) ∧
    (∀ st, storeInv st → storeInv (reset_all st).1) := by
  refine ⟨⟨by decide, by decide, by decide⟩, ?_, ?_⟩
  · intro st now floor boss_type player h
    obtain ⟨h1, h2, h3⟩ := h
    rcases kill_boss_cases st now floor boss_type player with hc | ⟨fm, bs, hb, hfk, hbs, hc⟩
    · rw [hc]
      exact ⟨h1, h2, h3⟩
    · rw [hc]
      unfold storeInv
      dsimp only
      refine ⟨wellKeyed_update h1 hfk hbs, ?_, ?_⟩
      · rw [truncate100_length]
        omega
      · intro e he
        rcases List.mem_append.mp (mem_of_mem_truncate100 he) with hold | hnew
        · exact h3 e hold
        · have hfkm : ("floor" ++ pyStr floor) ∈ floorKeys := floor_mem_of_lookup h1 hfk
          have hbm : bs ∈ bossTypes := boss_mem_of_lookup h1 hfk hbs
          have he' : e = ⟨floor, boss_type, player, now, 120⟩ := by simpa using hnew
          subst he'
          subst hb
          simp [entryOk, hfkm, hbm]
  · intro st h
    obtain ⟨h1, h2, h3⟩ := h
    exact ⟨(by decide : wellKeyed init_bosses = true), h2, h3⟩

/-- C4 witness: the amended invariant holds after one concrete kill from the
fresh store. -/
theorem C4_invariants_witness :
    storeInv (kill_boss mkBossStorage 3 (.vInt 2) (.vStr "healer") (.vStr "W")).1 :=
  C4_invariants_amended.2.1 mkBossStorage 3 (.vInt 2) (.vStr "healer") (.vStr "W")
    C4_invariants_amended.1

/-! ### Claim C5 — invalid kill is rejected without mutation -/

/-- C5 counterexample: the pair (floor `"1"` as a string, boss `"mage"`) is
not one of the 16 valid slots, yet `kill_boss` succeeds and mutates the
store — so "not one of the 16 valid slots implies failure with no mutation"
is false as stated. -/
theorem C5_invalid_kill_counterexample :
    specValidSlot (.vStr "1") (.vStr "mage") = false ∧
    (kill_boss mkBossStorage 0 (.vStr "1") (.vStr "mage") (.vStr "A")).2 = true ∧
    (kill_boss mkBossStorage 0 (.vStr "1") (.vStr "mage") (.vStr "A")).1 ≠ mkBossStorage := by
  decide

/-- C5 (amended): for every well-keyed store, if the interpolated key
`floor{floor}` is not one of the four floor keys, or the boss value is not
one of the four boss-type strings, then `kill_boss` returns failure and the
entire state — slot map and history — is returned unchanged. -/
theorem C5_invalid_kill_amended (st : BossStorage) (now : Int) (floor boss_type player : Val)
    (hw : wellKeyed st.bosses = true)
    (h : ("floor" ++ pyStr floor) ∉ floorKeys ∨
      ∀ s, boss_type = Val.vStr s → s ∉ bossTypes) :
    kill_boss st now floor boss_type player = (st, false) := by
  rcases kill_boss_cases st now floor boss_type player with hc | ⟨fm, bs, hb, hfk, hbs, hc⟩
  · exact hc
  · exfalso
    rcases h with h | h
    · exact h (floor_mem_of_lookup hw hfk)
    · exact h bs hb (boss_mem_of_lookup hw hfk hbs)

/-- C5 witness: floor 5 is rejected and the fresh store is unchanged. -/
theorem C5_invalid_kill_witness :
    kill_boss mkBossStorage 0 (.vInt 5) (.vStr "mage") (.vStr "A") = (mkBossStorage, false) :=
  C5_invalid_kill_amended mkBossStorage 0 (.vInt 5) (.vStr "mage") (.vStr "A") (by decide)
    (Or.inl (by decide))

/-! ### Claim C6 — valid kill always records -/

/-- C6: for every well-keyed store (whatever the slot held before — alive or
already carrying a record), a kill of a valid slot (integer floor 1–4 and
one of the four boss-type strings) succeeds; afterwards the slot holds
exactly the record `{kill_time := now, player, respawn_minutes := 120}` —
unconditionally overwriting any prior record, with `kill_time = now` at
least any pre-call clock value `t0 ≤ now` — and exactly one history entry,
the new kill, sits at the tail of the history, whose length grows by one up
to the 100-entry cap. -/
theorem C6_valid_kill (st : BossStorage) (now t0 : Int) (n : Int) (bs : String)
    (player : Val) (hw : wellKeyed st.bosses = true) (h1 : 1 ≤ n) (h4 : n ≤ 4)
    (hb : bs ∈ bossTypes) (ht : t0 ≤ now) :
    (kill_boss st now (.vInt n) (.vStr bs) player).2 = true ∧
    lookupSlot (kill_boss st now (.vInt n) (.vStr bs) player).1 (.vInt n) (.vStr bs) =
      some { kill_time := now, player := player, respawn_minutes := 120 } ∧
    (∀ r, lookupSlot (kill_boss st now (.vInt n) (.vStr bs) player).1 (.vInt n) (.vStr bs) =
      some r → t0 ≤ r.kill_time ∧ r.player = player ∧ r.respawn_minutes = 120) ∧
    (kill_boss st now (.vInt n) (.vStr bs) player).1.kill_history.getLast? =
      some { floor := .vInt n, boss := .vStr bs, player := player, kill_time := now,
             respawn := 120 } ∧
    (kill_boss st now (.vInt n) (.vStr bs) player).1.kill_history.length =
      min (st.kill_history.length + 1) 100 := by
  obtain ⟨fm, hfk, hbs⟩ := valid_slot_lookup hw h1 h4 hb
  have heq := @kill_boss_eq_of_lookup st now (Val.vInt n) player fm bs hfk hbs
  rw [heq]
  refine ⟨rfl, ?_, ?_, ?_, ?_⟩
  · simp [lookupSlot, lookupA_updateA_self]
  · intro r hr
    simp [lookupSlot, lookupA_updateA_self] at hr
    rw [← hr]
    exact ⟨ht, rfl, rfl⟩
  · exact truncate100_concat_getLast st.kill_history _
  · dsimp only
    rw [truncate100_length]
    simp

/-- C6 witness: a second kill of the already-dead slot `(1, "mage")` by Bob
at clock 9 overwrites Alice's record. -/
theorem C6_valid_kill_witness :
    (kill_boss killedOnce 9 (.vInt 1) (.vStr "mage") (.vStr "Bob")).2 = true ∧
    lookupSlot (kill_boss killedOnce 9 (.vInt 1) (.vStr "mage") (.vStr "Bob")).1
      (.vInt 1) (.vStr "mage") =
      some { kill_time := 9, player := .vStr "Bob", respawn_minutes := 120 } ∧
    (∀ r, lookupSlot (kill_boss killedOnce 9 (.vInt 1) (.vStr "mage") (.vStr "Bob")).1
      (.vInt 1) (.vStr "mage") = some r →
        5 ≤ r.kill_time ∧ r.player = .vStr "Bob" ∧ r.respawn_minutes = 120) ∧
    (kill_boss killedOnce 9 (.vInt 1) (.vStr "mage") (.vStr "Bob")).1.kill_history.getLast? =
      some { floor := .vInt 1, boss := .vStr "mage", player := .vStr "Bob", kill_time := 9,
             respawn := 120 } ∧
    (kill_boss killedOnce 9 (.vInt 1) (.vStr "mage") (.vStr "Bob")).1.kill_history.length =
      min (killedOnce.kill_history.length + 1) 100 :=
  C6_valid_kill killedOnce 9 5 1 "mage" (.vStr "Bob") (by decide) (by decide) (by decide)
    (by decide) (by decide)

/-! ### Claim C7 — reset route authorization -/

/-- C7: the `/api/reset` route compares the `X-Auth-Token` header with the
configured token by string equality. On mismatch (including an absent
header) it answers 401 Unauthorized with the store untouched and nothing
emitted; on match it resets all 16 slots (the snapshot becomes a fresh
`init_bosses`), answers success, and broadcasts one `reset_all` event to
every connected client. -/
theorem C7_reset_route (st : BossStorage) (clients : List Nat) (auth_token : Option String)
    (expected_token : String) :
    (auth_token ≠ some expected_token →
      reset_route st clients auth_token expected_token =
        (st, [], .err 401 "Unauthorized")) ∧
    (auth_token = some expected_token →
      reset_route st clients auth_token expected_token =
        ({ st with bosses := init_bosses },
         [{ event := "reset_all", recipients := clients, payload := .resetNote }],
         .okSuccess) ∧
      get_boss_state (reset_route st clients auth_token expected_token).1 = init_bosses) := by
  constructor
  · intro h
    simp [reset_route, h]
  · intro h
    constructor
    · simp [reset_route, h, reset_all]
    · simp [reset_route, h, reset_all, get_boss_state]

/-- C7 witness: wrong token leaves the post-kill store unchanged with a 401;
the right token resets the slots and broadcasts `reset_all` to clients 7
and 8. -/
theorem C7_reset_route_witness :
    reset_route killedOnce [7, 8] (some "wrong") "admin123" =
      (killedOnce, [], .err 401 "Unauthorized") ∧
    reset_route killedOnce [7, 8] (some "admin123") "admin123" =
      ({ killedOnce with bosses := init_bosses },
       [{ event := "reset_all", recipients := [7, 8], payload := .resetNote }],
       .okSuccess) :=
  ⟨(C7_reset_route killedOnce [7, 8] (some "wrong") "admin123").1 (by decide),
   ((C7_reset_route killedOnce [7, 8] (some "admin123") "admin123").2 rfl).1⟩

/-! ### Claim C8 — socket fan-out -/

/-- C8: for a `boss_kill` socket message from `sender`: if the report is
valid (`kill_boss` succeeds), the handler emits `boss_update` with the kill
payload to exactly the other connected clients — never to the sender — and
exactly one `kill_confirmed` with success and the same payload to the sender
alone; if the report is invalid, the sender gets a single `kill_confirmed`
failure and no `boss_update` is emitted to anyone. -/
theorem C8_socket_fanout (st : BossStorage) (now : Int) (clients : List Nat) (sender : Nat)
    (data : List (String × Val)) :
    ((kill_boss st now (dictGet data "floor" .vNone) (dictGet data "boss" .vNone)
        (dictGet data "player" (.vStr "Unknown"))).2 = true →
      handle_boss_kill st now clients sender data =
        ((kill_boss st now (dictGet data "floor" .vNone) (dictGet data "boss" .vNone)
            (dictGet data "player" (.vStr "Unknown"))).1,
         [{ event := "boss_update", recipients := clients.filter (fun c => c != sender),
            payload := .update (dictGet data "floor" .vNone) (dictGet data "boss" .vNone)
              (dictGet data "player" (.vStr "Unknown")) now 120 },
          { event := "kill_confirmed", recipients := [sender],
            payload := .confirmed true (dictGet data "floor" .vNone)
              (dictGet data "boss" .vNone) (dictGet data "player" (.vStr "Unknown")) now }]) ∧
      sender ∉ clients.filter (fun c => c != sender) ∧
      ∀ c ∈ clients, c ≠ sender → c ∈ clients.filter (fun c => c != sender)) ∧
    ((kill_boss st now (dictGet data "floor" .vNone) (dictGet data "boss" .vNone)
        (dictGet data "player" (.vStr "Unknown"))).2 = false →
      handle_boss_kill st now clients sender data =
        (st, [{ event := "kill_confirmed", recipients := [sender],
                payload := .confirmedFail "Invalid data" }])) := by
  constructor
  · intro hs
    have hlook := kill_boss_success_lookup st now (dictGet data "floor" .vNone)
      (dictGet data "boss" .vNone) (dictGet data "player" (.vStr "Unknown")) hs
    refine ⟨?_, ?_, ?_⟩
    · simp [handle_boss_kill, hs, hlook]
    · simp [List.mem_filter]
    · intro c hc hne
      simp [List.mem_filter, hc, hne]
  · intro hs
    have hst : (kill_boss st now (dictGet data "floor" .vNone) (dictGet data "boss" .vNone)
        (dictGet data "player" (.vStr "Unknown"))).1 = st := by
      rcases kill_boss_cases st now (dictGet data "floor" .vNone) (dictGet data "boss" .vNone)
        (dictGet data "player" (.vStr "Unknown")) with hc | ⟨fm, bs, hb, hfk, hbs, hc⟩
      · rw [hc]
      · rw [hc] at hs
        simp at hs
    conv_rhs => rw [← hst]
    simp [handle_boss_kill, hs]

/-- C8 witness: client 1 reports a valid kill; clients 0 and 2 get
`boss_update`, client 1 gets only `kill_confirmed` with success. -/
theorem C8_socket_fanout_witness :
    handle_boss_kill mkBossStorage 5 [0, 1, 2] 1
        [("floor", .vInt 1), ("boss", .vStr "mage")] =
      ((kill_boss mkBossStorage 5 (.vInt 1) (.vStr "mage") (.vStr "Unknown")).1,
       [{ event := "boss_update", recipients := [0, 2],
          payload := .update (.vInt 1) (.vStr "mage") (.vStr "Unknown") 5 120 },
        { event := "kill_confirmed", recipients := [1],
          payload := .confirmed true (.vInt 1) (.vStr "mage") (.vStr "Unknown") 5 }]) :=
  ((C8_socket_fanout mkBossStorage 5 [0, 1, 2] 1
    [("floor", .vInt 1), ("boss", .vStr "mage")]).1 (by decide)).1

/-! ### Claim C9 — missing or falsy fields on /api/kill -/

/-- C9 counterexample: the empty JSON object is a kill report whose `floor`
field is absent, yet the handler answers 400 `No JSON data` — not the
claimed `Missing floor or boss` — because `if not data` fires first (an
empty dict is falsy). State is unchanged and nothing is broadcast either
way. -/
theorem C9_missing_fields_counterexample :
    dictGet [] "floor" .vNone = .vNone ∧
    report_kill mkBossStorage 0 [] [] = (mkBossStorage, [], .err 400 "No JSON data") := by
  decide

/-- C9 (amended): any non-empty kill-report payload whose `floor` or `boss`
is absent or falsy (0, `False`, the empty string, `null`) gets the 400
`Missing floor or boss` response with no state mutation and no broadcast;
the empty payload instead takes the `No JSON data` branch (with the same
absence of side effects). -/
theorem C9_missing_fields_amended (st : BossStorage) (now : Int) (clients : List Nat)
    (data : List (String × Val)) (hne : data ≠ [])
    (hmiss : truthy (dictGet data "floor" .vNone) = false ∨
      truthy (dictGet data "boss" .vNone) = false) :
    report_kill st now clients data = (st, [], .err 400 "Missing floor or boss") := by
  have h0 : data.isEmpty = false := by
    cases data with
    | nil => exact absurd rfl hne
    | cons a t => rfl
  rcases hmiss with hm | hm <;> simp [report_kill, h0, hm]

/-- C9 witness: a present-but-falsy floor (`0`) is classified as missing. -/
theorem C9_missing_fields_witness :
    report_kill mkBossStorage 0 [3] [("floor", .vInt 0), ("boss", .vStr "mage")] =
      (mkBossStorage, [], .err 400 "Missing floor or boss") :=
  C9_missing_fields_amended mkBossStorage 0 [3]
    [("floor", .vInt 0), ("boss", .vStr "mage")] (by decide) (Or.inl (by decide))

/-! ### Claim C10 — string floors are accepted -/

/-- C10: a floor supplied as the decimal string matching an integer 1–4
interpolates to the same `floorN` key, so `kill_boss` succeeds and updates
exactly the same slot map as the integer call; the appended history entry
keeps the raw string floor, and the `/api/kill` broadcast payload carries
the raw string floor unconverted as well. -/
theorem C10_string_floor (st : BossStorage) (now : Int) (clients : List Nat) (n : Int)
    (bs : String) (player : Val) (hw : wellKeyed st.bosses = true)
    (h1 : 1 ≤ n) (h4 : n ≤ 4) (hb : bs ∈ bossTypes) :
    (kill_boss st now (.vStr (toString n)) (.vStr bs) player).2 = true ∧
    (kill_boss st now (.vStr (toString n)) (.vStr bs) player).1.bosses =
      (kill_boss st now (.vInt n) (.vStr bs) player).1.bosses ∧
    (kill_boss st now (.vStr (toString n)) (.vStr bs) player).1.kill_history.getLast? =
      some { floor := .vStr (toString n), boss := .vStr bs, player := player,
             kill_time := now, respawn := 120 } ∧
    (report_kill st now clients [("floor", .vStr (toString n)), ("boss", .vStr bs)]).2.1 =
      [{ event := "boss_update", recipients := clients,
         payload := .update (.vStr (toString n)) (.vStr bs) (.vStr "Игрок") now 120 }] := by
  obtain ⟨fm, hfk, hbs⟩ := valid_slot_lookup hw h1 h4 hb
  have heqS := @kill_boss_eq_of_lookup st now (Val.vStr (toString n)) player fm bs hfk hbs
  have heqI := @kill_boss_eq_of_lookup st now (Val.vInt n) player fm bs hfk hbs
  have hts : toString n ≠ "" := by
    interval_cases n <;> decide
  have hbne : bs ≠ "" := by
    simp [bossTypes] at hb
    rcases hb with rfl | rfl | rfl | rfl <;> decide
  refine ⟨by rw [heqS], by rw [heqS, heqI]; rfl, ?_, ?_⟩
  · rw [heqS]
    exact truncate100_concat_getLast st.kill_history _
  · rw [report_kill_success_emits st now clients
      [("floor", .vStr (toString n)), ("boss", .vStr bs)] rfl
      (by simp [dictGet, lookupA, truthy, hts])
      (by simp [dictGet, lookupA, truthy, hbne])
      (by rw [show kill_boss st now (dictGet [("floor", Val.vStr (toString n)),
          ("boss", Val.vStr bs)] "floor" .vNone)
          (dictGet [("floor", Val.vStr (toString n)), ("boss", Val.vStr bs)] "boss" .vNone)
          (dictGet [("floor", Val.vStr (toString n)), ("boss", Val.vStr bs)] "player"
            (.vStr "Игрок")) =
          kill_boss st now (.vStr (toString n)) (.vStr bs) (.vStr "Игрок") from rfl,
          @kill_boss_eq_of_lookup st now (Val.vStr (toString n)) (Val.vStr "Игрок") fm bs
            hfk hbs])]
    rfl

/-- C10 witness: the string floor `"3"` behaves like the integer 3 for the
slot map, while history and broadcast keep the raw string. -/
theorem C10_string_floor_witness :
    (kill_boss mkBossStorage 11 (.vStr "3") (.vStr "spearman") (.vStr "Zoe")).2 = true ∧
    (kill_boss mkBossStorage 11 (.vStr "3") (.vStr "spearman") (.vStr "Zoe")).1.bosses =
      (kill_boss mkBossStorage 11 (.vInt 3) (.vStr "spearman") (.vStr "Zoe")).1.bosses ∧
    (kill_boss mkBossStorage 11 (.vStr "3")
        (.vStr "spearman") (.vStr "Zoe")).1.kill_history.getLast? =
      some { floor := .vStr "3", boss := .vStr "spearman", player := .vStr "Zoe",
             kill_time := 11, respawn := 120 } ∧
    (report_kill mkBossStorage 11 [4]
        [("floor", .vStr "3"), ("boss", .vStr "spearman")]).2.1 =
      [{ event := "boss_update", recipients := [4],
         payload := .update (.vStr "3") (.vStr "spearman") (.vStr "Игрок") 11 120 }] :=
  C10_string_floor mkBossStorage 11 [4] 3 "spearman" (.vStr "Zoe") (by decide) (by decide)
    (by decide) (by decide)

